import Mathlib

/-!
# Verification of the load-generation / latency-aggregation core

Shallow embedding of the per-second bucket aggregator and the worker
request loops of `tools/load_py.py` and `tools/range_loader.py`.

Conventions of the embedding:
* wall-clock seconds (`int(time.time())`) are `Int`;
* latencies (`dt_ms`, Python floats) are `ℚ`;
* HTTP status codes are `Int` (the sentinel transport-failure code is `-1`);
* the asyncio queue read by the single aggregation loop is replayed as the
  list of events the loop observes, in order: either a dequeued sample
  `(ts, dt_ms, code)` or a poll timeout (`asyncio.TimeoutError`);
* Python exceptions raised by a request are embedded as an explicit
  failure outcome (the source wraps each request in a catch-all handler);
* `random.random() < seek_prob` / `random.randrange` draws are oracle
  inputs to the otherwise deterministic cursor-update code.
-/

/-- One element of the producer→consumer queue: the tuple
`(int(time.time()), dt_ms, code)` put by a worker (`load_py.py` line 18,
`range_loader.py` lines 54 and 81). -/
structure Sample where
  ts : Int
  lat : ℚ
  code : Int
deriving DecidableEq

/-- One emitted CSV data row, columns
`ts, rps, avg_ms, p50_ms, p95_ms, ok, err` (`load_py.py` lines 90 and 95).
For an empty second the three latency fields are the empty string,
embedded as `none`. -/
structure Row where
  ts : Int
  count : Nat
  avg : Option ℚ
  p50 : Option ℚ
  p95 : Option ℚ
  ok : Nat
  err : Nat
deriving DecidableEq

/-- The aggregation loop's mutable state: `current_sec`, `lats`, `ok`, `err`
(`load_py.py` lines 62-64), plus the list of rows written to the CSV so far
(the sink, flushed after every row). -/
structure AggState where
  current : Int
  lats : List ℚ
  ok : Nat
  err : Nat
  rows : List Row
deriving DecidableEq

/-- State at the top of the aggregation loop: `current_sec = int(time.time())`,
empty bucket, nothing written yet (`load_py.py` lines 62-64). -/
def initState (i : Int) : AggState :=
  { current := i, lats := [], ok := 0, err := 0, rows := [] }

/-- The Python built-in `round` on the values this code feeds it,
modelled over `ℚ`: round half to even (banker's rounding).
The two products the source rounds, `0.50*(n-1)` and `0.95*(n-1)`,
are computed here as exact rationals. -/
def pythonRound (x : ℚ) : Int :=
  if Int.fract x < 1/2 then ⌊x⌋
  else if 1/2 < Int.fract x then ⌊x⌋ + 1
  else if ⌊x⌋ % 2 = 0 then ⌊x⌋ else ⌊x⌋ + 1

/-- The clamped nearest-rank index `min(n-1, int(round(c*(n-1))))` used for
`p50` (`c = 0.50`) and `p95` (`c = 0.95`) in `load_py.py` lines 86-87. -/
def percIdx (c : ℚ) (n : Nat) : Nat :=
  min (n - 1) (pythonRound (c * ((n - 1 : Nat) : ℚ))).toNat

/-- The row written for a second with an empty bucket:
`[current_sec, 0, "", "", "", 0, 0]` (`load_py.py` line 95). -/
def emptyRow (sec : Int) : Row :=
  { ts := sec, count := 0, avg := none, p50 := none, p95 := none,
    ok := 0, err := 0 }

/-- Summarising the open bucket at flush time (`load_py.py` lines 83-96):
sort `lats`, take `n = len(lats)`, nearest-rank `p50`/`p95`, arithmetic
mean, and the accumulated `ok`/`err` counters; an empty bucket yields the
empty row. `lats.sort()` is embedded as `insertionSort` — over a linear
order every comparison sort computes the same sorted list. -/
def flushRow (s : AggState) : Row :=
  if s.lats.isEmpty then emptyRow s.current
  else
    let sorted := s.lats.insertionSort (· ≤ ·)
    let n := s.lats.length
    { ts := s.current, count := n,
      avg := some (s.lats.sum / (n : ℚ)),
      p50 := some (sorted.getD (percIdx (1/2) n) 0),
      p95 := some (sorted.getD (percIdx (19/20) n) 0),
      ok := s.ok, err := s.err }

/-- Folding one dequeued sample into the open bucket
(`load_py.py` lines 76-80 and 99-103): append `dt_ms` to `lats` and
increment `ok` if `200 <= code < 300`, else `err`. -/
def foldSample (s : AggState) (lat : ℚ) (code : Int) : AggState :=
  { s with lats := s.lats ++ [lat],
           ok := if 200 ≤ code ∧ code < 300 then s.ok + 1 else s.ok,
           err := if 200 ≤ code ∧ code < 300 then s.err else s.err + 1 }

/-- One iteration of the catch-up loop body (`load_py.py` lines 83-98):
write the summary of the open bucket, advance `current_sec` by one and
reset `lats, ok, err`. -/
def flushAdvance (s : AggState) : AggState :=
  { current := s.current + 1, lats := [], ok := 0, err := 0,
    rows := s.rows ++ [flushRow s] }

/-- The catch-up `while current_sec < ts` loop, run on fuel so that it is
structurally recursive; `catchUp` below supplies exactly the fuel the
source loop consumes. -/
def catchUpFuel : Nat → AggState → Int → AggState
  | 0, s, _ => s
  | n + 1, s, ts => if s.current < ts then catchUpFuel n (flushAdvance s) ts else s

/-- The loop `while current_sec < ts: flush; current_sec += 1; reset`
(`load_py.py` lines 82-98): it runs exactly `ts - current_sec`
iterations when `ts > current_sec`, and none otherwise. -/
def catchUp (s : AggState) (ts : Int) : AggState :=
  catchUpFuel (ts - s.current).toNat s ts

/-- What the aggregation loop of `load_py.py` observes on one pass:
either a dequeued sample, or `asyncio.wait_for` timing out after 1s
(lines 105-110: the timeout branch only re-checks the deadline; it writes
nothing and leaves all state unchanged). -/
inductive Event where
  | sample (s : Sample)
  | timeout
deriving DecidableEq

/-- One pass of the `load_py.py` aggregation loop body (lines 74-110):
a sample with `ts == current_sec` is folded into the open bucket; one with
`ts > current_sec` first runs the catch-up flush loop; a sample with
`ts < current_sec` matches neither branch of the `if`/`elif` and leaves
the state untouched; a poll timeout changes nothing. -/
def stepLoad (s : AggState) (e : Event) : AggState :=
  match e with
  | .sample smp =>
      if smp.ts = s.current then foldSample s smp.lat smp.code
      else if s.current < smp.ts then foldSample (catchUp s smp.ts) smp.lat smp.code
      else s
  | .timeout => s

/-- The whole `while True` aggregation loop of `load_py.py` (lines 68-110),
replayed over the finite list of events observed before the deadline
broke the loop. -/
def runLoad (s : AggState) (es : List Event) : AggState :=
  es.foldl stepLoad s

/-- What the aggregation loop of `range_loader.py` observes on one pass:
a dequeued sample, or the 0.2s poll timing out with `int(time.time())`
equal to `now` (lines 147-152). -/
inductive REvent where
  | sample (s : Sample)
  | timeout (now : Int)
deriving DecidableEq

/-- One pass of the `range_loader.py` aggregation loop body (lines 122-152).
The sample cases are identical to `load_py.py`; the timeout branch differs:
when `int(time.time()) > current_sec` it writes one empty row for
`current_sec` and jumps `current_sec` to `now` (without touching
`lats`, `ok`, `err`). -/
def stepRange (s : AggState) (e : REvent) : AggState :=
  match e with
  | .sample smp =>
      if smp.ts = s.current then foldSample s smp.lat smp.code
      else if s.current < smp.ts then foldSample (catchUp s smp.ts) smp.lat smp.code
      else s
  | .timeout now =>
      if s.current < now then
        { s with rows := s.rows ++ [emptyRow s.current], current := now }
      else s

/-- The `while time.time() < t_end` aggregation loop of `range_loader.py`
(lines 122-152) over its observed events. -/
def runRange (s : AggState) (es : List REvent) : AggState :=
  es.foldl stepRange s

/-- Shutdown of `load_py.py` (lines 112-129): after the loop breaks, the
stop event is set, workers are awaited, and every sample still sitting in
the queue is removed by `get_nowait()` and discarded; nothing further is
written to the sink. -/
def drainDiscard (s : AggState) (leftover : List Sample) : AggState := s

/-- A full `load_py.py` measurement phase: the aggregation loop over its
observed events followed by the drain-and-discard shutdown. -/
def runFull (i : Int) (es : List Event) (leftover : List Sample) : AggState :=
  drainDiscard (runLoad (initState i) es) leftover

/-- The timestamps of the sample events, in arrival order. -/
def sampleTss (es : List Event) : List Int :=
  es.filterMap (fun e => match e with | .sample smp => some smp.ts | .timeout => none)

/-- The list `[a, a+1, ..., a+n-1]` of consecutive seconds a gap-free series
covers. -/
def intRange (a : Int) : Nat → List Int
  | 0 => []
  | n + 1 => a :: intRange (a + 1) n

/-- The bookkeeping invariant: the open bucket's counters account for
exactly its latency list, and every already-written row satisfies
`ok + err = count`. -/
def okErrInv (s : AggState) : Prop :=
  s.ok + s.err = s.lats.length ∧ ∀ r ∈ s.rows, r.ok + r.err = r.count

/-! ## The range-cursor request strategy (range_loader.py worker) -/

/-- One byte-range request header `Range: bytes=start-stop`
(`range_loader.py` line 71). -/
structure RangeReq where
  start : Int
  stop : Int
deriving DecidableEq

/-- The random draws one iteration of the range worker loop consumes
(`range_loader.py` lines 64-66 and 84-88): `doSeek` is the outcome of
`random.random() < seek_prob` at the top of the loop, `seekTo` the
`random.randrange(0, max(1, total - 1))` value it would jump to;
`doAdvance` is the outcome of `random.random() >= seek_prob` after the
request, `reseedTo` the reseed value otherwise used. -/
structure RandDraw where
  doSeek : Bool
  seekTo : Int
  doAdvance : Bool
  reseedTo : Int
deriving DecidableEq

/-- One iteration of the streaming-simulation loop of `range_loader.py`
(lines 62-88), given the discovered total size, the chunk size, the
worker's current offset and the iteration's random draws: returns the
byte range requested and the offset for the next iteration.
`start = offset`, `end = min(offset + chunk_size - 1, max_offset)` with
`max_offset = total - 1`; the offset advances to `end + 1` only if
`end < max_offset` and no seek comes up, otherwise it reseeds. -/
def rangeStep (total chunkSize offset : Int) (d : RandDraw) : RangeReq × Int :=
  let off := if d.doSeek then d.seekTo else offset
  let fin := min (off + chunkSize - 1) (total - 1)
  let next := if fin < total - 1 ∧ d.doAdvance then fin + 1 else d.reseedTo
  (⟨off, fin⟩, next)

/-- The worker's request loop replayed over a finite list of random
draws, collecting the byte ranges requested and the final offset. -/
def rangeTrace (total chunkSize : Int) : Int → List RandDraw → List RangeReq × Int
  | offset, [] => ([], offset)
  | offset, d :: ds =>
    let st := rangeStep total chunkSize offset d
    let rest := rangeTrace total chunkSize st.2 ds
    (st.1 :: rest.1, rest.2)

/-- A well-formed byte range for a resource of `total` bytes and the given
chunk size: it starts at or after byte 0, ends at or before the last byte,
and asks for at most `chunkSize` bytes. -/
def wfReq (total chunkSize : Int) (r : RangeReq) : Prop :=
  0 ≤ r.start ∧ r.start ≤ r.stop ∧ r.stop ≤ total - 1 ∧
    r.stop - r.start + 1 ≤ chunkSize

/-- A well-formed cursor offset: a valid byte position of the resource. -/
def wfOff (total o : Int) : Prop := 0 ≤ o ∧ o ≤ total - 1

/-- The seek and reseed draws are values of
`random.randrange(0, max(1, total - 1))`. -/
def wfDraw (total : Int) (d : RandDraw) : Prop :=
  (0 ≤ d.seekTo ∧ d.seekTo < max 1 (total - 1)) ∧
    (0 ≤ d.reseedTo ∧ d.reseedTo < max 1 (total - 1))

/-! ## The worker request loop (load_py.py worker) -/

/-- The result of one request attempt as seen by the worker's catch-all
handler (`load_py.py` lines 10-16): either a completed HTTP response with
its status code, or any raised exception (timeout, connection error,
protocol error, ...), which the handler maps to the sentinel code. -/
inductive Outcome where
  | response (status : Int)
  | failure
deriving DecidableEq

/-- The sample one worker iteration emits (`load_py.py` lines 8-18):
`code` starts at the sentinel `-1`, is replaced by the status code only
when a response completes, and the elapsed milliseconds are measured
around the attempt either way. -/
def workerSample (now : Int) (elapsed : ℚ) : Outcome → Sample
  | .response status => ⟨now, elapsed, status⟩
  | .failure => ⟨now, elapsed, -1⟩

/-- The worker loop (`load_py.py` lines 5-19) replayed over its attempts,
each attempt a `(completion second, elapsed ms, outcome)` triple: every
attempt — failed or not — produces exactly one queued sample, and the
loop continues to the next attempt. -/
def workerRun (attempts : List (Int × ℚ × Outcome)) : List Sample :=
  attempts.map (fun a => workerSample a.1 a.2.1 a.2.2)

/-- The §8 scenario sample sequence: three Samples at `t = 100`, then one
at `t = 102`, as observed by the aggregation loop started at second 100. -/
def scenario8 : List Event :=
  [.sample ⟨100, 10, 200⟩, .sample ⟨100, 20, 200⟩,
   .sample ⟨100, 999, 500⟩, .sample ⟨102, 5, 200⟩]

-- Sanity check on a concrete input (spec §8 scenario).
example :
    (runLoad (initState 100)
      [Event.sample ⟨100, 10, 200⟩, Event.sample ⟨100, 20, 200⟩,
       Event.sample ⟨100, 999, 500⟩, Event.sample ⟨102, 5, 200⟩]).rows =
    [{ ts := 100, count := 3, avg := some 343, p50 := some 20,
       p95 := some 999, ok := 2, err := 1 }, emptyRow 101] := by
  norm_num [runLoad, stepLoad, foldSample, catchUp, catchUpFuel, flushAdvance,
    flushRow, initState, emptyRow, percIdx, pythonRound, Int.fract]

example : (runLoad (initState 100) [Event.sample ⟨100, 1, 200⟩]).rows = [] := by
  decide

/-! ## Basic lemmas about the aggregator's state transitions -/

@[simp]
lemma foldSample_current (s : AggState) (lat : ℚ) (code : Int) :
    (foldSample s lat code).current = s.current := rfl

@[simp]
lemma foldSample_rows (s : AggState) (lat : ℚ) (code : Int) :
    (foldSample s lat code).rows = s.rows := rfl

lemma foldSample_okerr (s : AggState) (lat : ℚ) (code : Int)
    (h : s.ok + s.err = s.lats.length) :
    (foldSample s lat code).ok + (foldSample s lat code).err =
      (foldSample s lat code).lats.length := by
  simp only [foldSample]
  split_ifs <;> simp <;> omega

lemma flushRow_ts (s : AggState) : (flushRow s).ts = s.current := by
  unfold flushRow
  split <;> rfl

lemma flushRow_okerr (s : AggState) (h : s.ok + s.err = s.lats.length) :
    (flushRow s).ok + (flushRow s).err = (flushRow s).count := by
  unfold flushRow
  split
  · rfl
  · simpa using h

@[simp]
lemma intRange_length (a : Int) (n : Nat) : (intRange a n).length = n := by
  induction n generalizing a with
  | zero => rfl
  | succ n ih => simp [intRange, ih]

lemma intRange_append (m : Nat) (a : Int) (n : Nat) :
    intRange a m ++ intRange (a + (m : Int)) n = intRange a (m + n) := by
  induction m generalizing a with
  | zero => simp [intRange]
  | succ m ih =>
    have h1 : a + ((m + 1 : Nat) : Int) = (a + 1) + (m : Int) := by push_cast; ring
    have h2 : m + 1 + n = (m + n) + 1 := by omega
    simp only [intRange, h1, h2, List.cons_append, ih (a + 1)]

lemma intRange_mem {t a : Int} {n : Nat} :
    t ∈ intRange a n ↔ a ≤ t ∧ t < a + n := by
  induction n generalizing a with
  | zero => simp [intRange]
  | succ n ih =>
    simp only [intRange, List.mem_cons, ih]
    push_cast
    omega

/-! ## The catch-up flush loop -/

lemma catchUpFuel_current (n : Nat) :
    ∀ (s : AggState) (ts : Int), (ts - s.current).toNat = n →
      (catchUpFuel n s ts).current = max s.current ts := by
  induction n with
  | zero =>
    intro s ts h
    have : ts ≤ s.current := by omega
    simp [catchUpFuel, max_eq_left this]
  | succ n ih =>
    intro s ts h
    have hlt : s.current < ts := by omega
    have hadv : (flushAdvance s).current = s.current + 1 := rfl
    have hn : (ts - (flushAdvance s).current).toNat = n := by rw [hadv]; omega
    simp only [catchUpFuel, if_pos hlt, ih _ _ hn, hadv]
    rw [max_eq_right (by omega : s.current + 1 ≤ ts), max_eq_right hlt.le]

lemma catchUp_current (s : AggState) (ts : Int) :
    (catchUp s ts).current = max s.current ts :=
  catchUpFuel_current _ s ts rfl

lemma catchUpFuel_rows (n : Nat) :
    ∀ (s : AggState) (ts : Int), (ts - s.current).toNat = n →
      (catchUpFuel n s ts).rows.map Row.ts =
        s.rows.map Row.ts ++ intRange s.current n := by
  induction n with
  | zero => intro s ts _; simp [catchUpFuel, intRange]
  | succ n ih =>
    intro s ts h
    have hlt : s.current < ts := by omega
    have hn : (ts - (flushAdvance s).current).toNat = n := by
      show (ts - (s.current + 1)).toNat = n; omega
    simp only [catchUpFuel, if_pos hlt, ih _ _ hn]
    simp [flushAdvance, flushRow_ts, intRange, List.append_assoc]

lemma catchUp_rows (s : AggState) (ts : Int) :
    (catchUp s ts).rows.map Row.ts =
      s.rows.map Row.ts ++ intRange s.current (ts - s.current).toNat :=
  catchUpFuel_rows _ s ts rfl

lemma catchUpFuel_reset (n : Nat) :
    ∀ (s : AggState) (ts : Int), n ≠ 0 → (ts - s.current).toNat = n →
      (catchUpFuel n s ts).lats = [] ∧ (catchUpFuel n s ts).ok = 0 ∧
        (catchUpFuel n s ts).err = 0 := by
  induction n with
  | zero => intro s ts h; exact absurd rfl h
  | succ n ih =>
    intro s ts _ h
    have hlt : s.current < ts := by omega
    simp only [catchUpFuel, if_pos hlt]
    rcases Nat.eq_zero_or_pos n with hn | hn
    · subst hn
      simp [catchUpFuel, flushAdvance]
    · have hfa : (ts - (flushAdvance s).current).toNat = n := by
        show (ts - (s.current + 1)).toNat = n; omega
      exact ih _ _ (by omega) hfa

lemma catchUp_reset (s : AggState) (ts : Int) (h : s.current < ts) :
    (catchUp s ts).lats = [] ∧ (catchUp s ts).ok = 0 ∧ (catchUp s ts).err = 0 :=
  catchUpFuel_reset _ s ts (by omega) rfl

lemma catchUpFuel_okerr (n : Nat) (s : AggState) (ts : Int)
    (hrows : ∀ r ∈ s.rows, r.ok + r.err = r.count)
    (hbkt : s.ok + s.err = s.lats.length) :
    (∀ r ∈ (catchUpFuel n s ts).rows, r.ok + r.err = r.count) ∧
      (catchUpFuel n s ts).ok + (catchUpFuel n s ts).err =
        (catchUpFuel n s ts).lats.length := by
  induction n generalizing s with
  | zero => exact ⟨hrows, hbkt⟩
  | succ n ih =>
    simp only [catchUpFuel]
    split
    · refine ih (flushAdvance s) ?_ (by simp [flushAdvance])
      intro r hr
      rcases List.mem_append.mp hr with h | h
      · exact hrows r h
      · rcases List.mem_singleton.mp h with rfl
        exact flushRow_okerr s hbkt
    · exact ⟨hrows, hbkt⟩

lemma catchUp_okerr (s : AggState) (ts : Int)
    (hrows : ∀ r ∈ s.rows, r.ok + r.err = r.count)
    (hbkt : s.ok + s.err = s.lats.length) :
    (∀ r ∈ (catchUp s ts).rows, r.ok + r.err = r.count) ∧
      (catchUp s ts).ok + (catchUp s ts).err = (catchUp s ts).lats.length :=
  catchUpFuel_okerr _ s ts hrows hbkt

/-! ## Step-level lemmas for the two aggregation loops -/

lemma stepLoad_sample_current (s : AggState) (smp : Sample) :
    (stepLoad s (.sample smp)).current = max s.current smp.ts := by
  simp only [stepLoad]
  split_ifs with h1 h2
  · simp [h1]
  · simp [catchUp_current]
  · rw [max_eq_left (by omega)]

lemma stepLoad_mono (s : AggState) (e : Event) :
    s.current ≤ (stepLoad s e).current := by
  cases e with
  | sample smp => rw [stepLoad_sample_current]; exact le_max_left _ _
  | timeout => exact le_rfl

lemma stepLoad_rows (s : AggState) (e : Event) :
    (stepLoad s e).rows.map Row.ts =
      s.rows.map Row.ts ++
        intRange s.current ((stepLoad s e).current - s.current).toNat := by
  cases e with
  | sample smp =>
    rw [stepLoad_sample_current]
    simp only [stepLoad]
    split_ifs with h1 h2
    · rw [max_eq_left (le_of_eq h1)]
      simp [intRange]
    · rw [max_eq_right h2.le]
      simpa using catchUp_rows s smp.ts
    · rw [max_eq_left (by omega)]
      simp [intRange]
  | timeout => simp [stepLoad, intRange]

lemma stepRange_sample_current (s : AggState) (smp : Sample) :
    (stepRange s (.sample smp)).current = max s.current smp.ts := by
  simp only [stepRange]
  split_ifs with h1 h2
  · simp [h1]
  · simp [catchUp_current]
  · rw [max_eq_left (by omega)]

lemma stepRange_mono (s : AggState) (e : REvent) :
    s.current ≤ (stepRange s e).current := by
  cases e with
  | sample smp => rw [stepRange_sample_current]; exact le_max_left _ _
  | timeout now =>
    simp only [stepRange]
    split_ifs with h
    · exact h.le
    · exact le_rfl

/-! ## Run-level lemmas for the load_py aggregation loop -/

@[simp]
lemma runLoad_nil (s : AggState) : runLoad s [] = s := rfl

@[simp]
lemma runLoad_cons (s : AggState) (e : Event) (es : List Event) :
    runLoad s (e :: es) = runLoad (stepLoad s e) es := rfl

lemma runLoad_mono (s : AggState) (es : List Event) :
    s.current ≤ (runLoad s es).current := by
  induction es generalizing s with
  | nil => exact le_rfl
  | cons e es ih => exact le_trans (stepLoad_mono s e) (ih (stepLoad s e))

lemma runLoad_current (s : AggState) (es : List Event) :
    (runLoad s es).current = (sampleTss es).foldl max s.current := by
  induction es generalizing s with
  | nil => rfl
  | cons e es ih =>
    cases e with
    | sample smp =>
      simp only [runLoad_cons, ih, sampleTss, List.filterMap_cons, List.foldl_cons]
      rw [stepLoad_sample_current]
    | timeout =>
      simp only [runLoad_cons, ih, sampleTss, List.filterMap_cons]
      rfl

lemma runLoad_rows (s : AggState) (es : List Event) :
    (runLoad s es).rows.map Row.ts =
      s.rows.map Row.ts ++
        intRange s.current ((runLoad s es).current - s.current).toNat := by
  induction es generalizing s with
  | nil => simp [intRange]
  | cons e es ih =>
    have hm1 : s.current ≤ (stepLoad s e).current := stepLoad_mono s e
    have hm2 : (stepLoad s e).current ≤ (runLoad (stepLoad s e) es).current :=
      runLoad_mono _ es
    have hsum : s.current + (((stepLoad s e).current - s.current).toNat : Int) =
        (stepLoad s e).current := by omega
    rw [runLoad_cons, ih (stepLoad s e), stepLoad_rows s e, List.append_assoc]
    congr 1
    have happ := intRange_append ((stepLoad s e).current - s.current).toNat
      s.current ((runLoad (stepLoad s e) es).current - (stepLoad s e).current).toNat
    rw [hsum] at happ
    rw [happ]
    congr 1
    omega

/-! ## Folding max over the observed sample timestamps -/

lemma le_foldl_max_self (l : List Int) (i : Int) : i ≤ l.foldl max i := by
  induction l generalizing i with
  | nil => exact le_rfl
  | cons x l ih => exact le_trans (le_max_left i x) (ih (max i x))

lemma foldl_max_le (l : List Int) (i M : Int) (hi : i ≤ M)
    (hl : ∀ t ∈ l, t ≤ M) : l.foldl max i ≤ M := by
  induction l generalizing i with
  | nil => exact hi
  | cons x l ih =>
    refine ih (max i x) (max_le hi (hl x (by simp))) ?_
    intro t ht
    exact hl t (by simp [ht])

lemma le_foldl_max_of_mem {l : List Int} {t : Int} (i : Int) (h : t ∈ l) :
    t ≤ l.foldl max i := by
  induction l generalizing i with
  | nil => cases h
  | cons x l ih =>
    rcases List.mem_cons.mp h with rfl | h
    · exact le_trans (le_max_right i t) (le_foldl_max_self l (max i t))
    · exact ih (max i x) h

/-! ## Late samples and the ok/err bookkeeping invariant -/

lemma stepLoad_drop (s : AggState) (smp : Sample) (h : smp.ts < s.current) :
    stepLoad s (.sample smp) = s := by
  simp only [stepLoad]
  rw [if_neg (by omega), if_neg (by omega)]

lemma stepRange_drop (s : AggState) (smp : Sample) (h : smp.ts < s.current) :
    stepRange s (.sample smp) = s := by
  simp only [stepRange]
  rw [if_neg (by omega), if_neg (by omega)]

lemma okErrInv_init (i : Int) : okErrInv (initState i) := by
  constructor
  · rfl
  · intro r hr; cases hr

lemma okErrInv_fold (s : AggState) (lat : ℚ) (code : Int) (h : okErrInv s) :
    okErrInv (foldSample s lat code) := by
  refine ⟨foldSample_okerr s lat code h.1, ?_⟩
  simpa using h.2

lemma okErrInv_stepLoad (s : AggState) (e : Event) (h : okErrInv s) :
    okErrInv (stepLoad s e) := by
  cases e with
  | timeout => exact h
  | sample smp =>
    simp only [stepLoad]
    split_ifs with h1 h2
    · exact okErrInv_fold s smp.lat smp.code h
    · have hc := catchUp_okerr s smp.ts h.2 h.1
      exact okErrInv_fold _ smp.lat smp.code ⟨hc.2, hc.1⟩
    · exact h

lemma okErrInv_stepRange (s : AggState) (e : REvent) (h : okErrInv s) :
    okErrInv (stepRange s e) := by
  cases e with
  | sample smp =>
    simp only [stepRange]
    split_ifs with h1 h2
    · exact okErrInv_fold s smp.lat smp.code h
    · have hc := catchUp_okerr s smp.ts h.2 h.1
      exact okErrInv_fold _ smp.lat smp.code ⟨hc.2, hc.1⟩
    · exact h
  | timeout now =>
    simp only [stepRange]
    split_ifs with h1
    · refine ⟨h.1, ?_⟩
      intro r hr
      rcases List.mem_append.mp hr with hm | hm
      · exact h.2 r hm
      · rcases List.mem_singleton.mp hm with rfl
        rfl
    · exact h

lemma okErrInv_runLoad (s : AggState) (es : List Event) (h : okErrInv s) :
    okErrInv (runLoad s es) := by
  induction es generalizing s with
  | nil => exact h
  | cons e es ih => exact ih _ (okErrInv_stepLoad s e h)

@[simp]
lemma runRange_nil (s : AggState) : runRange s [] = s := rfl

@[simp]
lemma runRange_cons (s : AggState) (e : REvent) (es : List REvent) :
    runRange s (e :: es) = runRange (stepRange s e) es := rfl

lemma okErrInv_runRange (s : AggState) (es : List REvent) (h : okErrInv s) :
    okErrInv (runRange s es) := by
  induction es generalizing s with
  | nil => exact h
  | cons e es ih => exact ih _ (okErrInv_stepRange s e h)

/-! ## Properties of the rounding and percentile-index computations -/

lemma pythonRound_floor_le (x : ℚ) : ⌊x⌋ ≤ pythonRound x := by
  unfold pythonRound
  split_ifs <;> omega

lemma pythonRound_le_floor_add_one (x : ℚ) : pythonRound x ≤ ⌊x⌋ + 1 := by
  unfold pythonRound
  split_ifs <;> omega

lemma pythonRound_mono {x y : ℚ} (h : x ≤ y) : pythonRound x ≤ pythonRound y := by
  have hf : ⌊x⌋ ≤ ⌊y⌋ := Int.floor_mono h
  rcases eq_or_lt_of_le hf with heq | hlt
  · have hfr : Int.fract x ≤ Int.fract y := by
      simp only [Int.fract]
      rw [heq]
      linarith
    unfold pythonRound
    rw [← heq]
    split_ifs <;> first | omega | (exfalso; linarith)
  · calc pythonRound x ≤ ⌊x⌋ + 1 := pythonRound_le_floor_add_one x
    _ ≤ ⌊y⌋ := by omega
    _ ≤ pythonRound y := pythonRound_floor_le y

lemma percIdx_mono (n : Nat) {c d : ℚ} (h : c ≤ d) : percIdx c n ≤ percIdx d n := by
  unfold percIdx
  exact min_le_min le_rfl (Int.toNat_le_toNat
    (pythonRound_mono (mul_le_mul_of_nonneg_right h (Nat.cast_nonneg _))))

lemma percIdx_lt (c : ℚ) (n : Nat) (hn : 1 ≤ n) : percIdx c n < n :=
  lt_of_le_of_lt (min_le_left _ _) (by omega)

lemma flushRow_of_ne (s : AggState) (h : s.lats ≠ []) :
    flushRow s =
      { ts := s.current, count := s.lats.length,
        avg := some (s.lats.sum / (s.lats.length : ℚ)),
        p50 := some ((s.lats.insertionSort (· ≤ ·)).getD (percIdx (1/2) s.lats.length) 0),
        p95 := some ((s.lats.insertionSort (· ≤ ·)).getD (percIdx (19/20) s.lats.length) 0),
        ok := s.ok, err := s.err } := by
  unfold flushRow
  rw [if_neg (by simp [h])]

lemma randrange_wfOff {total r : Int} (ht : 1 ≤ total) (h0 : 0 ≤ r)
    (hr : r < max 1 (total - 1)) : wfOff total r := by
  unfold wfOff
  rcases le_or_lt total 1 with h | h
  · rw [max_eq_left (by omega)] at hr
    omega
  · rw [max_eq_right (by omega)] at hr
    omega

lemma rangeStep_wf (total chunkSize offset : Int) (d : RandDraw)
    (ht : 1 ≤ total) (hc : 1 ≤ chunkSize) (ho : wfOff total offset)
    (hd : wfDraw total d) :
    wfReq total chunkSize (rangeStep total chunkSize offset d).1 ∧
      wfOff total (rangeStep total chunkSize offset d).2 := by
  obtain ⟨hs, hr⟩ := hd
  obtain ⟨hs1, hs2⟩ := randrange_wfOff ht hs.1 hs.2
  obtain ⟨hr1, hr2⟩ := randrange_wfOff ht hr.1 hr.2
  obtain ⟨ho1, ho2⟩ := ho
  simp only [rangeStep, wfReq, wfOff]
  split_ifs <;> refine ⟨⟨?_, ?_, ?_, ?_⟩, ?_, ?_⟩ <;> omega

lemma runRange_mono (s : AggState) (es : List REvent) :
    s.current ≤ (runRange s es).current := by
  induction es generalizing s with
  | nil => exact le_rfl
  | cons e es ih => exact le_trans (stepRange_mono s e) (ih (stepRange s e))

/-! ## The claims -/

/-- Claim C1, counterexample: A single Sample at `t = 100` fed to the
aggregation loop started at second 100: `max(observed_at) = 100` and
`initial_second = 100`, so the claim demands `100 - 100 + 1 = 1` emitted
row, but the loop emits none — the bucket for the final observed second
is only flushed by a *later* sample, which never comes. -/
theorem claim1_cex :
    (runLoad (initState 100) [Event.sample ⟨100, 1, 200⟩]).rows.length ≠
      ((100 : Int) - 100 + 1).toNat := by decide

/-- Claim C1, amended: For any event sequence fed to the `load_py.py`
aggregation loop whose samples all have `observed_at ≥ initial_second`
and whose largest observed timestamp is `M`, the emitted rows' `ts`
values are exactly the consecutive seconds
`initial_second, initial_second + 1, ..., M - 1` in increasing order —
no gaps, no duplicates, one row per second including sample-less
seconds — so the number of emitted rows is
`max(observed_at) - initial_second`, one less than claimed: the bucket
of the final observed second `M` stays open and is never emitted.
Poll timeouts (wall-clock time advancing with no Sample) add nothing. -/
theorem claim1_amended (i M : Int) (es : List Event)
    (hmem : M ∈ sampleTss es) (hub : ∀ t ∈ sampleTss es, t ≤ M)
    (hlb : ∀ t ∈ sampleTss es, i ≤ t) :
    (runLoad (initState i) es).rows.map Row.ts = intRange i (M - i).toNat ∧
      (runLoad (initState i) es).rows.length = (M - i).toNat := by
  have hiM : i ≤ M := hlb M hmem
  have hcur : (runLoad (initState i) es).current = M := by
    rw [runLoad_current]
    exact le_antisymm (foldl_max_le _ _ _ hiM hub) (le_foldl_max_of_mem _ hmem)
  have hrows := runLoad_rows (initState i) es
  rw [hcur] at hrows
  have hmap : (runLoad (initState i) es).rows.map Row.ts = intRange i (M - i).toNat := by
    simpa [initState] using hrows
  refine ⟨hmap, ?_⟩
  have := congrArg List.length hmap
  simpa using this

/-- Witness for C1 (amended) at the §8 scenario: initial second 100,
largest observed timestamp 102, rows for seconds 100 and 101. -/
theorem claim1_witness :
    ((102 : Int) ∈ sampleTss scenario8 ∧ (∀ t ∈ sampleTss scenario8, t ≤ 102) ∧
        (∀ t ∈ sampleTss scenario8, (100 : Int) ≤ t)) ∧
      ((runLoad (initState 100) scenario8).rows.map Row.ts =
          intRange 100 ((102 : Int) - 100).toNat ∧
        (runLoad (initState 100) scenario8).rows.length = ((102 : Int) - 100).toNat) :=
  ⟨⟨by decide, by decide, by decide⟩,
    claim1_amended 100 102 scenario8 (by decide) (by decide) (by decide)⟩

/-- Claim C2, counterexample: Running the full §8 scenario (loop plus
drain-and-discard shutdown): the three `t = 100` Samples are emitted in
the row for second 100 and second 101 gets its empty row, but the
`t = 102` Sample stays in the open bucket (`lats = [5]`,
`current_sec = 102`) and appears in no emitted row — the loop's last
action is not a flush, and the accumulated final second is dropped. -/
theorem claim2_cex :
    (runFull 100 scenario8 []).rows.map Row.ts = [100, 101] ∧
      (runFull 100 scenario8 []).rows.map Row.count = [3, 0] ∧
      (runFull 100 scenario8 []).current = 102 ∧
      (runFull 100 scenario8 []).lats = [5] := by decide

/-- Claim C2, amended: At termination the `load_py.py` aggregation loop
stops reading when the run deadline passes; the stop signal is only set
afterwards, Samples left in the channel are drained and *discarded*
(they change nothing), and the final partial bucket is never flushed:
every emitted row's `ts` is strictly below the final `current_sec`, so a
Sample folded into the open bucket before shutdown (such as the `t = 102`
Sample of the §8 scenario) never appears in an emitted row. -/
theorem claim2_amended (i : Int) (es : List Event) (leftover : List Sample) :
    runFull i es leftover = runLoad (initState i) es ∧
      ∀ r ∈ (runFull i es leftover).rows, r.ts < (runFull i es leftover).current := by
  refine ⟨rfl, ?_⟩
  intro r hr
  have hmono : (initState i).current ≤ (runLoad (initState i) es).current :=
    runLoad_mono _ _
  have hmem : r.ts ∈ (runLoad (initState i) es).rows.map Row.ts :=
    List.mem_map_of_mem Row.ts hr
  rw [runLoad_rows (initState i) es] at hmem
  rw [show (initState i).rows.map Row.ts = [] from rfl, List.nil_append,
    show (initState i).current = i from rfl] at hmem
  have hint := intRange_mem.mp hmem
  rw [show (initState i).current = i from rfl] at hmono
  show r.ts < (runLoad (initState i) es).current
  omega

/-- Witness for C2 (amended): the §8 scenario with one left-over queued
Sample; the empty row for second 101 was emitted before the final
`current_sec` of 102. -/
theorem claim2_witness :
    (emptyRow 101 ∈ (runFull 100 scenario8 [⟨103, 1, 200⟩]).rows) ∧
      (emptyRow 101).ts < (runFull 100 scenario8 [⟨103, 1, 200⟩]).current :=
  ⟨by decide, (claim2_amended 100 scenario8 [⟨103, 1, 200⟩]).2 _ (by decide)⟩

/-- Claim C3, counterexample: A warmup Sample completing at `t = 100`, the
same wall-clock second at which the measurement loop starts
(`current_sec = 100`): it is still in the queue when the loop begins,
matches the open bucket, and changes the emitted row for second 100 —
so not every Sample produced during warmup is discarded. -/
theorem claim3_cex :
    (runLoad (initState 100)
        (Event.sample ⟨100, 5, 200⟩ :: [Event.sample ⟨101, 7, 200⟩])).rows ≠
      (runLoad (initState 100) [Event.sample ⟨101, 7, 200⟩]).rows := by decide

/-- Claim C3, amended: There is no dedicated discard path: warmup Samples
stay in the queue and are read by the measurement loop itself. Every
warmup Sample whose completion second is *strictly below* the loop's
initial `current_sec` falls into the silent drop case and contributes
nothing to any emitted row; but a warmup Sample completing in the very
second the loop starts is folded into the first bucket (the
counterexample), so the claimed property only holds for the strict
prefix. -/
theorem claim3_amended (i : Int) (ws : List Sample) (rest : List Event)
    (h : ∀ w ∈ ws, w.ts < i) :
    runLoad (initState i) (ws.map Event.sample ++ rest) =
      runLoad (initState i) rest := by
  induction ws with
  | nil => rfl
  | cons w ws ih =>
    have hw : w.ts < (initState i).current := h w (by simp)
    simp only [List.map_cons, List.cons_append, runLoad_cons, stepLoad_drop _ _ hw]
    exact ih (fun x hx => h x (by simp [hx]))

/-- Witness for C3 (amended): one warmup Sample at second 99 ahead of the
§8 scenario changes nothing for a loop started at second 100. -/
theorem claim3_witness :
    (∀ w ∈ ([⟨99, 3, 200⟩] : List Sample), w.ts < 100) ∧
      runLoad (initState 100) (([⟨99, 3, 200⟩] : List Sample).map Event.sample ++ scenario8) =
        runLoad (initState 100) scenario8 :=
  ⟨by decide, claim3_amended 100 [⟨99, 3, 200⟩] scenario8 (by decide)⟩

/-- Claim C4, counterexample: After a Sample at `t = 102` advanced
`current_sec` to 102 (open bucket `lats = [7]`, `ok = 1`), a late Sample
with `observed_at = 100 < current_sec` arrives: the claim says its
latency 3 joins the open bucket and `ok` becomes 2; the code instead
matches neither branch and drops it — the state is unchanged. -/
theorem claim4_cex :
    ¬ ((3 : ℚ) ∈ (stepLoad (runLoad (initState 100) [Event.sample ⟨102, 7, 200⟩])
        (Event.sample ⟨100, 3, 200⟩)).lats) ∧
      (stepLoad (runLoad (initState 100) [Event.sample ⟨102, 7, 200⟩])
          (Event.sample ⟨100, 3, 200⟩)).ok = 1 ∧
      (stepLoad (runLoad (initState 100) [Event.sample ⟨102, 7, 200⟩])
          (Event.sample ⟨100, 3, 200⟩)).lats = [7] := by decide

/-- Claim C4, amended: A Sample arriving with `observed_at` strictly below
`current_sec` (late, out of order, after its bucket was flushed) is
*silently dropped* by both aggregation loops: the state — open bucket,
counters, `current_sec` and emitted rows — is left exactly as it was, so
the late Sample is lost rather than folded into the current bucket. -/
theorem claim4_amended (s : AggState) (smp : Sample) (h : smp.ts < s.current) :
    stepLoad s (.sample smp) = s ∧ stepRange s (.sample smp) = s :=
  ⟨stepLoad_drop s smp h, stepRange_drop s smp h⟩

/-- Witness for C4 (amended): a `t = 100` Sample reaching an aggregator
whose `current_sec` is 101 leaves the state untouched. -/
theorem claim4_witness :
    ((⟨100, 3, 200⟩ : Sample).ts < (initState 101).current) ∧
      (stepLoad (initState 101) (.sample ⟨100, 3, 200⟩) = initState 101 ∧
        stepRange (initState 101) (.sample ⟨100, 3, 200⟩) = initState 101) :=
  ⟨by decide, claim4_amended (initState 101) ⟨100, 3, 200⟩ (by decide)⟩

/-- Claim C5: For every row emitted by either aggregation loop,
`ok + err = count`: each folded Sample appends exactly one latency and
increments exactly one of the two counters, flushing resets both with
the list, and both an empty row and the range loader's timeout-path
empty row carry literal zeros — so the equality is an invariant of every
write to the sink. -/
theorem claim5_ok_err_count (i j : Int) (es : List Event) (esr : List REvent) :
    (∀ r ∈ (runLoad (initState i) es).rows, r.ok + r.err = r.count) ∧
      ∀ r ∈ (runRange (initState j) esr).rows, r.ok + r.err = r.count :=
  ⟨(okErrInv_runLoad _ es (okErrInv_init i)).2,
    (okErrInv_runRange _ esr (okErrInv_init j)).2⟩

/-- Witness for C5 at the §8 scenario: the emitted empty row for second
101 satisfies `ok + err = count`. -/
theorem claim5_witness :
    (emptyRow 101 ∈ (runLoad (initState 100) scenario8).rows) ∧
      (emptyRow 101).ok + (emptyRow 101).err = (emptyRow 101).count :=
  ⟨by decide, (claim5_ok_err_count 100 100 scenario8 []).1 _ (by decide)⟩

/-- Claim C6: For every flush of a non-empty bucket, the nearest-rank
percentiles `p50 = sorted[min(n-1, round(0.50*(n-1)))]` and
`p95 = sorted[min(n-1, round(0.95*(n-1)))]` (as computed by `flushRow`)
satisfy `p50 ≤ p95`; both are members of the bucket's latency list, and
hence lie within `[min(latencies), max(latencies)]`: they are bounded by
every lower bound and every upper bound of the list, in particular by
its minimum and maximum. -/
theorem claim6_percentiles (s : AggState) (h : s.lats ≠ []) :
    ∃ a b, (flushRow s).p50 = some a ∧ (flushRow s).p95 = some b ∧
      a ≤ b ∧ a ∈ s.lats ∧ b ∈ s.lats ∧
      ∀ lo hi, (∀ x ∈ s.lats, lo ≤ x) → (∀ x ∈ s.lats, x ≤ hi) →
        lo ≤ a ∧ a ≤ hi ∧ lo ≤ b ∧ b ≤ hi := by
  have hperm : List.Perm (s.lats.insertionSort (· ≤ ·)) s.lats :=
    List.perm_insertionSort _ _
  have hlen : (s.lats.insertionSort (· ≤ ·)).length = s.lats.length := hperm.length_eq
  have hn : 1 ≤ s.lats.length := List.length_pos.mpr h
  have h50 : percIdx (1/2) s.lats.length < (s.lats.insertionSort (· ≤ ·)).length := by
    rw [hlen]; exact percIdx_lt _ _ hn
  have h95 : percIdx (19/20) s.lats.length < (s.lats.insertionSort (· ≤ ·)).length := by
    rw [hlen]; exact percIdx_lt _ _ hn
  have hidx : percIdx (1/2) s.lats.length ≤ percIdx (19/20) s.lats.length :=
    percIdx_mono _ (by norm_num)
  have hsorted : (s.lats.insertionSort (· ≤ ·)).Sorted (· ≤ ·) :=
    List.sorted_insertionSort _ _
  rw [flushRow_of_ne s h]
  refine ⟨_, _, rfl, rfl, ?_, ?_, ?_, ?_⟩
  · rw [List.getD_eq_getElem _ _ h50, List.getD_eq_getElem _ _ h95]
    have hle : (⟨percIdx (1/2) s.lats.length, h50⟩ :
        Fin (s.lats.insertionSort (· ≤ ·)).length) ≤ ⟨percIdx (19/20) s.lats.length, h95⟩ :=
      Fin.mk_le_mk.mpr hidx
    have hrel := hsorted.rel_get_of_le hle
    simpa [List.get_eq_getElem] using hrel
  · rw [List.getD_eq_getElem _ _ h50]
    exact hperm.subset (List.getElem_mem h50)
  · rw [List.getD_eq_getElem _ _ h95]
    exact hperm.subset (List.getElem_mem h95)
  · intro lo hi hlo hhi
    have ha : (s.lats.insertionSort (· ≤ ·)).getD (percIdx (1/2) s.lats.length) 0 ∈ s.lats := by
      rw [List.getD_eq_getElem _ _ h50]
      exact hperm.subset (List.getElem_mem h50)
    have hb : (s.lats.insertionSort (· ≤ ·)).getD (percIdx (19/20) s.lats.length) 0 ∈ s.lats := by
      rw [List.getD_eq_getElem _ _ h95]
      exact hperm.subset (List.getElem_mem h95)
    exact ⟨hlo _ ha, hhi _ ha, hlo _ hb, hhi _ hb⟩

/-- Witness for C6 at the §8 scenario's `t = 100` bucket
`lats = [10, 20, 999]`. -/
theorem claim6_witness :
    (({ current := 100, lats := [10, 20, 999], ok := 2, err := 1, rows := [] } :
        AggState).lats ≠ []) ∧
      ∃ a b,
        (flushRow
            { current := 100, lats := [10, 20, 999], ok := 2, err := 1,
              rows := [] }).p50 = some a ∧
        (flushRow
            { current := 100, lats := [10, 20, 999], ok := 2, err := 1,
              rows := [] }).p95 = some b ∧
        a ≤ b ∧ a ∈ ([10, 20, 999] : List ℚ) ∧ b ∈ ([10, 20, 999] : List ℚ) ∧
        ∀ lo hi, (∀ x ∈ ([10, 20, 999] : List ℚ), lo ≤ x) →
          (∀ x ∈ ([10, 20, 999] : List ℚ), x ≤ hi) →
          lo ≤ a ∧ a ≤ hi ∧ lo ≤ b ∧ b ≤ hi :=
  ⟨by decide,
    claim6_percentiles
      { current := 100, lats := [10, 20, 999], ok := 2, err := 1, rows := [] }
      (by decide)⟩

/-- Claim C8: One worker attempt is total: a raised exception (timeout,
connection error, protocol error — the catch-all `except` of the worker
loop) never escapes and yields exactly one Sample carrying the sentinel
code `-1` and the measured elapsed milliseconds; a completed response
yields exactly one Sample with its actual status code; the loop emits
one Sample per attempt (`workerRun` maps attempts one-to-one), and a
folded Sample is counted ok exactly when its code lies in `[200, 300)`,
err otherwise — exactly one of the two counters moves. -/
theorem claim8_worker_total (attempts : List (Int × ℚ × Outcome)) :
    (workerRun attempts).length = attempts.length ∧
      (∀ (now : Int) (elapsed : ℚ),
        workerSample now elapsed .failure = ⟨now, elapsed, -1⟩) ∧
      (∀ (now : Int) (elapsed : ℚ) (status : Int),
        workerSample now elapsed (.response status) = ⟨now, elapsed, status⟩) ∧
      (∀ (s : AggState) (lat : ℚ) (code : Int),
        ((foldSample s lat code).ok = s.ok + 1 ↔ 200 ≤ code ∧ code < 300) ∧
          ((foldSample s lat code).err = s.err + 1 ↔ ¬(200 ≤ code ∧ code < 300)) ∧
          (foldSample s lat code).ok + (foldSample s lat code).err =
            s.ok + s.err + 1) := by
  refine ⟨List.length_map _ _, fun _ _ => rfl, fun _ _ _ => rfl, ?_⟩
  intro s lat code
  simp only [foldSample]
  split_ifs with hc <;> simp [hc] <;> omega

/-- Claim C7: Range-cursor scenario: discovered size `T = 1000`,
`chunk_size = 300`, starting offset 0, `seek_prob = 0` (so every
`random.random() < seek_prob` draw is false and every
`random.random() >= seek_prob` draw is true, whatever the seek/reseed
values drawn): the four successive byte ranges are exactly
`[0,299], [300,599], [600,899], [900,999]` — each end is
`min(offset + chunk_size - 1, T - 1)`, the last clamped to `T - 1` —
and after the final chunk the cursor is the random reseed value, a
position in `[0, 999)`, never an offset of 1000. -/
theorem claim7_range_scenario (sA sB sC sD rA rB rC rD : Int)
    (hr : 0 ≤ rD ∧ rD < max 1 ((1000 : Int) - 1)) :
    (rangeTrace 1000 300 0
        [⟨false, sA, true, rA⟩, ⟨false, sB, true, rB⟩,
         ⟨false, sC, true, rC⟩, ⟨false, sD, true, rD⟩]).1 =
      [⟨0, 299⟩, ⟨300, 599⟩, ⟨600, 899⟩, ⟨900, 999⟩] ∧
      (rangeTrace 1000 300 0
        [⟨false, sA, true, rA⟩, ⟨false, sB, true, rB⟩,
         ⟨false, sC, true, rC⟩, ⟨false, sD, true, rD⟩]).2 = rD ∧
      0 ≤ (rangeTrace 1000 300 0
        [⟨false, sA, true, rA⟩, ⟨false, sB, true, rB⟩,
         ⟨false, sC, true, rC⟩, ⟨false, sD, true, rD⟩]).2 ∧
      (rangeTrace 1000 300 0
        [⟨false, sA, true, rA⟩, ⟨false, sB, true, rB⟩,
         ⟨false, sC, true, rC⟩, ⟨false, sD, true, rD⟩]).2 < 1000 := by
  have htr : (rangeTrace 1000 300 0
      [⟨false, sA, true, rA⟩, ⟨false, sB, true, rB⟩,
       ⟨false, sC, true, rC⟩, ⟨false, sD, true, rD⟩]) =
      ([⟨0, 299⟩, ⟨300, 599⟩, ⟨600, 899⟩, ⟨900, 999⟩], rD) := by
    norm_num [rangeTrace, rangeStep]
  rw [htr]
  refine ⟨rfl, rfl, hr.1, ?_⟩
  have := hr.2
  omega

/-- Witness for C7 with all seek/reseed draws equal to 0. -/
theorem claim7_witness :
    ((0 : Int) ≤ 0 ∧ (0 : Int) < max 1 ((1000 : Int) - 1)) ∧
      ((rangeTrace 1000 300 0
          [⟨false, 0, true, 0⟩, ⟨false, 0, true, 0⟩,
           ⟨false, 0, true, 0⟩, ⟨false, 0, true, 0⟩]).1 =
        [⟨0, 299⟩, ⟨300, 599⟩, ⟨600, 899⟩, ⟨900, 999⟩] ∧
        (rangeTrace 1000 300 0
          [⟨false, 0, true, 0⟩, ⟨false, 0, true, 0⟩,
           ⟨false, 0, true, 0⟩, ⟨false, 0, true, 0⟩]).2 = 0 ∧
        0 ≤ (rangeTrace 1000 300 0
          [⟨false, 0, true, 0⟩, ⟨false, 0, true, 0⟩,
           ⟨false, 0, true, 0⟩, ⟨false, 0, true, 0⟩]).2 ∧
        (rangeTrace 1000 300 0
          [⟨false, 0, true, 0⟩, ⟨false, 0, true, 0⟩,
           ⟨false, 0, true, 0⟩, ⟨false, 0, true, 0⟩]).2 < 1000) :=
  ⟨⟨by decide, by decide⟩, claim7_range_scenario 0 0 0 0 0 0 0 0 ⟨by decide, by decide⟩⟩

/-- Claim C9: the cursor `current_sec` never decreases: every transition of either
aggregation loop — folding a matching sample, catching up past a newer
sample, dropping a late sample, a poll timeout (including the range
loader's jump to the polled wall-clock second) — leaves `current_sec`
unchanged or increases it, stepwise and over any whole run. The state
holds exactly one open bucket (`lats`, `ok`, `err`), and the catch-up
flush discards the flushed bucket's contents and opens a fresh empty
one: after catching up to `ts`, `current_sec = ts` and the open bucket
is empty. -/
theorem claim9_current_monotone :
    (∀ (s : AggState) (e : Event), s.current ≤ (stepLoad s e).current) ∧
      (∀ (s : AggState) (e : REvent), s.current ≤ (stepRange s e).current) ∧
      (∀ (s : AggState) (es : List Event), s.current ≤ (runLoad s es).current) ∧
      (∀ (s : AggState) (es : List REvent), s.current ≤ (runRange s es).current) ∧
      ∀ (s : AggState) (ts : Int), s.current < ts →
        (catchUp s ts).current = ts ∧ (catchUp s ts).lats = [] ∧
          (catchUp s ts).ok = 0 ∧ (catchUp s ts).err = 0 := by
  refine ⟨stepLoad_mono, stepRange_mono, runLoad_mono, runRange_mono, ?_⟩
  intro s ts h
  have hc := catchUp_current s ts
  rw [max_eq_right h.le] at hc
  exact ⟨hc, catchUp_reset s ts h⟩

/-- Witness for C9: catching up from second 100 to 102 leaves
`current_sec = 102` and a fresh empty bucket. -/
theorem claim9_witness :
    ((initState 100).current < 102) ∧
      ((catchUp (initState 100) 102).current = 102 ∧
        (catchUp (initState 100) 102).lats = [] ∧
        (catchUp (initState 100) 102).ok = 0 ∧
        (catchUp (initState 100) 102).err = 0) :=
  ⟨by decide, claim9_current_monotone.2.2.2.2 (initState 100) 102 (by decide)⟩

/-- Claim C10: With a discovered total size `T ≥ 1` and `chunk_size ≥ 1`,
starting from any valid cursor offset (in particular the initial
`random.randrange(0, max(1, T-1))` draw) and with every seek/reseed draw
taken from `random.randrange(0, max(1, T-1))`, every Range header the
worker emits is well-formed — `0 ≤ start ≤ end ≤ T-1` and
`end - start + 1 ≤ chunk_size` — and the cursor offset stays a valid
byte position after every iteration, whether it advanced sequentially
(`offset = end + 1` only when `end < T-1`) or was reseeded. -/
theorem claim10_range_invariant (total chunkSize offset : Int)
    (draws : List RandDraw) (ht : 1 ≤ total) (hc : 1 ≤ chunkSize)
    (ho : wfOff total offset) (hd : ∀ d ∈ draws, wfDraw total d) :
    (∀ r ∈ (rangeTrace total chunkSize offset draws).1, wfReq total chunkSize r) ∧
      wfOff total (rangeTrace total chunkSize offset draws).2 := by
  induction draws generalizing offset with
  | nil =>
    refine ⟨?_, ho⟩
    intro r hr
    cases hr
  | cons d ds ih =>
    have hstep := rangeStep_wf total chunkSize offset d ht hc ho (hd d (by simp))
    have hrest := ih (rangeStep total chunkSize offset d).2 hstep.2
      (fun x hx => hd x (by simp [hx]))
    simp only [rangeTrace]
    refine ⟨?_, hrest.2⟩
    intro r hr
    rcases List.mem_cons.mp hr with h | h
    · rw [h]; exact hstep.1
    · exact hrest.1 r h

/-- Witness for C10: `T = 1000`, `chunk_size = 300`, offset 700, one
iteration with a seek to 5 drawn and a reseed value 7. -/
theorem claim10_witness :
    ((1 : Int) ≤ 1000 ∧ (1 : Int) ≤ 300 ∧ wfOff 1000 700 ∧
        (∀ d ∈ ([⟨true, 5, false, 7⟩] : List RandDraw), wfDraw 1000 d)) ∧
      ((∀ r ∈ (rangeTrace 1000 300 700 [⟨true, 5, false, 7⟩]).1, wfReq 1000 300 r) ∧
        wfOff 1000 (rangeTrace 1000 300 700 [⟨true, 5, false, 7⟩]).2) :=
  ⟨⟨by decide, by decide, by norm_num [wfOff], by norm_num [wfDraw]⟩,
    claim10_range_invariant 1000 300 700 [⟨true, 5, false, 7⟩]
      (by decide) (by decide) (by norm_num [wfOff]) (by norm_num [wfDraw])⟩
